import Mathlib

/-!
Verification development for the JSON-backed function-result cache
(src/src/caching/caching.py).

The embedding models Python runtime values with the inductive type PyVal,
the per-function cache table file with FileState, and the CacheManager
operations (_generate_cache_key, _serialize_value, _deserialize_value,
get_cached_result, save_cached_result) together with the memoizing
decorators cache_result and cache_result_dict as pure Lean functions.
External library primitives are modelled executably: the MD5 digest is
implemented in full over Nat, pickle.dumps/loads is modelled as an
injective byte encoding with a verified decoder, and bytes.hex /
bytes.fromhex as hex codecs.
-/

/-- A Python runtime value, as far as the caching layer observes it.
Kinds: None, bool, int, float (carried by its repr text, which is all the
cache ever reads from it), str, list, dict with string keys, a class
instance (its class name and its id, which Python prints in the default
str form), and a function/closure (unpicklable; name and id). -/
inductive PyVal where
  | none
  | bool (b : Bool)
  | int (n : Int)
  | float (r : String)
  | str (s : String)
  | list (xs : List PyVal)
  | dict (ps : List (String × PyVal))
  | obj (cls : String) (addr : Nat)
  | func (nm : String) (addr : Nat)

/-- type(arg).__name__ for each value kind. -/
def typeName : PyVal → String
  | .none => "NoneType"
  | .bool _ => "bool"
  | .int _ => "int"
  | .float _ => "float"
  | .str _ => "str"
  | .list _ => "list"
  | .dict _ => "dict"
  | .obj cls _ => cls
  | .func _ _ => "function"

/-- isinstance(v, (int, float, str, bool, type(None))), the primitive test
used by the leading-self heuristic in _generate_cache_key. -/
def isPrimitive : PyVal → Bool
  | .none => true
  | .bool _ => true
  | .int _ => true
  | .float _ => true
  | .str _ => true
  | _ => false

/-- The argument filter of _generate_cache_key: drop the first positional
argument when it exists and is not a primitive. -/
def filteredArgs : List PyVal → List PyVal
  | [] => []
  | a :: rest => if isPrimitive a then a :: rest else rest

/-- Decimal digit character. -/
def digitChar (d : Nat) : Char := Char.ofNat (48 + d % 10)

/-- Lowercase hex digit character. -/
def hexDigitChar (d : Nat) : Char :=
  if d % 16 < 10 then Char.ofNat (48 + d % 16) else Char.ofNat (87 + d % 16)

/-- Little-endian base-b digits of n, with fuel (fuel at least n suffices). -/
def digitsAux (b : Nat) : Nat → Nat → List Nat
  | _, 0 => []
  | 0, _+1 => []
  | f+1, n+1 => ((n+1) % b) :: digitsAux b f ((n+1) / b)

/-- Decimal text of a natural number, as Python prints it. -/
def natRepr (n : Nat) : String :=
  match n with
  | 0 => "0"
  | n+1 => String.mk (((digitsAux 10 (n+1) (n+1)).map digitChar).reverse)

/-- Python str() of an int. -/
def intRepr (n : Int) : String :=
  if n < 0 then "-" ++ natRepr n.natAbs else natRepr n.natAbs

/-- Lowercase hex text of a natural number (used in default object reprs). -/
def natHex (n : Nat) : String :=
  match n with
  | 0 => "0"
  | n+1 => String.mk (((digitsAux 16 (n+1) (n+1)).map hexDigitChar).reverse)

/-- One character of a Python string repr, escaped as repr() escapes it:
backslash, the active quote, newline, carriage return, tab, and other
control characters. -/
def reprChar (quote : Char) (c : Char) : List Char :=
  if c = '\\' then ['\\', '\\']
  else if c = quote then ['\\', quote]
  else if c = '\n' then ['\\', 'n']
  else if c = '\r' then ['\\', 'r']
  else if c = '\t' then ['\\', 't']
  else if c.toNat < 32 || c.toNat = 127 then
    ['\\', 'x', hexDigitChar (c.toNat / 16), hexDigitChar c.toNat]
  else [c]

/-- Python repr() of a str: single quotes, switching to double quotes when
the text contains a single quote but no double quote. -/
def strRepr (s : String) : String :=
  let quote : Char :=
    if s.data.any (fun c => c = '\'') && !(s.data.any (fun c => c = '"')) then '"' else '\''
  String.mk (quote :: (s.data.map (reprChar quote)).flatten ++ [quote])

/-- Comma-space joined list body, as Python renders container elements. -/
def joinComma : List String → String
  | [] => ""
  | [s] => s
  | s :: t => s ++ ", " ++ joinComma t

mutual
/-- Python repr() of a value. Class instances and functions use the default
address-bearing forms produced by str()/repr() on objects without custom
formatting. -/
def pyRepr : PyVal → String
  | .none => "None"
  | .bool b => cond b "True" "False"
  | .int n => intRepr n
  | .float r => r
  | .str s => strRepr s
  | .list xs => "[" ++ pyReprList xs ++ "]"
  | .dict ps => "\x7b" ++ pyReprPairs ps ++ "\x7d"
  | .obj cls addr => "<" ++ cls ++ " object at 0x" ++ natHex addr ++ ">"
  | .func nm addr => "<function " ++ nm ++ " at 0x" ++ natHex addr ++ ">"
def pyReprList : List PyVal → String
  | [] => ""
  | [v] => pyRepr v
  | v :: vs => pyRepr v ++ ", " ++ pyReprList vs
def pyReprPairs : List (String × PyVal) → String
  | [] => ""
  | [(k, v)] => strRepr k ++ ": " ++ pyRepr v
  | (k, v) :: ps => strRepr k ++ ": " ++ pyRepr v ++ ", " ++ pyReprPairs ps
end

/-- Python str() of a value: identical to repr() except on strings. -/
def pyStr : PyVal → String
  | .str s => s
  | v => pyRepr v

/-- Code-point lexicographic order on character lists: Python string <. -/
def strLtCore : List Char → List Char → Bool
  | [], [] => false
  | [], _ :: _ => true
  | _ :: _, [] => false
  | c :: cs, d :: ds =>
    if c.toNat < d.toNat then true
    else if d.toNat < c.toNat then false
    else strLtCore cs ds

/-- Python string comparison s1 < s2. -/
def strLt (a b : String) : Bool := strLtCore a.data b.data

/-- Insert one keyword pair into a key-sorted list (ascending by key). -/
def insertPair (x : String × PyVal) : List (String × PyVal) → List (String × PyVal)
  | [] => [x]
  | y :: t => if strLt x.1 y.1 then x :: y :: t else y :: insertPair x t

/-- The sorted(...) call on keyword items. kwargs is a dict, so keys are
pairwise distinct and sorting by key alone coincides with Python sorting
the (key, type name, value) triples lexicographically. -/
def sortPairs : List (String × PyVal) → List (String × PyVal)
  | [] => []
  | x :: t => insertPair x (sortPairs t)

/-- The (type name, value) tuple repr used for one positional argument. -/
def argTupleRepr (v : PyVal) : String :=
  "(" ++ strRepr (typeName v) ++ ", " ++ pyRepr v ++ ")"

/-- args_str in _generate_cache_key. -/
def argsStr (args : List PyVal) : String :=
  "[" ++ joinComma ((filteredArgs args).map argTupleRepr) ++ "]"

/-- The (key, type name, value) tuple repr used for one keyword argument. -/
def kwTripleRepr (kv : String × PyVal) : String :=
  "(" ++ strRepr kv.1 ++ ", " ++ strRepr (typeName kv.2) ++ ", " ++ pyRepr kv.2 ++ ")"

/-- kwargs_str in _generate_cache_key. -/
def kwargsStr (kwargs : List (String × PyVal)) : String :=
  "[" ++ joinComma ((sortPairs kwargs).map kwTripleRepr) ++ "]"

/-- params_str, the text that is UTF-8 encoded and hashed. -/
def paramsStr (args : List PyVal) (kwargs : List (String × PyVal)) : String :=
  argsStr args ++ ":" ++ kwargsStr kwargs

/-- UTF-8 encoding of one character, as a byte list. -/
def utf8Char (c : Char) : List Nat :=
  let n := c.toNat
  if n < 128 then [n]
  else if n < 2048 then [192 + n / 64, 128 + n % 64]
  else if n < 65536 then [224 + n / 4096, 128 + (n / 64) % 64, 128 + n % 64]
  else [240 + n / 262144, 128 + (n / 4096) % 64, 128 + (n / 64) % 64, 128 + n % 64]

/-- UTF-8 encoding of a string: the .encode call in _generate_cache_key. -/
def utf8Bytes (s : String) : List Nat := (s.data.map utf8Char).flatten

/-- 2 to the 32, the word modulus of MD5 arithmetic. -/
def m32 : Nat := 4294967296

/-- 32-bit modular addition. -/
def add32 (a b : Nat) : Nat := (a + b) % m32

/-- 32-bit bitwise complement (operands kept below 2 to the 32). -/
def not32 (a : Nat) : Nat := a ^^^ 4294967295

/-- 32-bit left rotation. -/
def rotl32 (x s : Nat) : Nat := ((x <<< s) % m32) ||| (x >>> (32 - s))

/-- The MD5 sine-derived round constants (RFC 1321). -/
def md5K : List Nat :=
  [0xd76aa478, 0xe8c7b756, 0x242070db, 0xc1bdceee,
   0xf57c0faf, 0x4787c62a, 0xa8304613, 0xfd469501,
   0x698098d8, 0x8b44f7af, 0xffff5bb1, 0x895cd7be,
   0x6b901122, 0xfd987193, 0xa679438e, 0x49b40821,
   0xf61e2562, 0xc040b340, 0x265e5a51, 0xe9b6c7aa,
   0xd62f105d, 0x02441453, 0xd8a1e681, 0xe7d3fbc8,
   0x21e1cde6, 0xc33707d6, 0xf4d50d87, 0x455a14ed,
   0xa9e3e905, 0xfcefa3f8, 0x676f02d9, 0x8d2a4c8a,
   0xfffa3942, 0x8771f681, 0x6d9d6122, 0xfde5380c,
   0xa4beea44, 0x4bdecfa9, 0xf6bb4b60, 0xbebfbc70,
   0x289b7ec6, 0xeaa127fa, 0xd4ef3085, 0x04881d05,
   0xd9d4d039, 0xe6db99e5, 0x1fa27cf8, 0xc4ac5665,
   0xf4292244, 0x432aff97, 0xab9423a7, 0xfc93a039,
   0x655b59c3, 0x8f0ccc92, 0xffeff47d, 0x85845dd1,
   0x6fa87e4f, 0xfe2ce6e0, 0xa3014314, 0x4e0811a1,
   0xf7537e82, 0xbd3af235, 0x2ad7d2bb, 0xeb86d391]

/-- The MD5 per-round left-rotation amounts. -/
def md5S : List Nat :=
  [7, 12, 17, 22, 7, 12, 17, 22, 7, 12, 17, 22, 7, 12, 17, 22,
   5, 9, 14, 20, 5, 9, 14, 20, 5, 9, 14, 20, 5, 9, 14, 20,
   4, 11, 16, 23, 4, 11, 16, 23, 4, 11, 16, 23, 4, 11, 16, 23,
   6, 10, 15, 21, 6, 10, 15, 21, 6, 10, 15, 21, 6, 10, 15, 21]

/-- The four 32-bit MD5 chaining registers. -/
structure MD5State where
  a : Nat
  b : Nat
  c : Nat
  d : Nat

/-- Little-endian 32-bit word number i of a 64-byte chunk. -/
def leWord (chunk : List Nat) (i : Nat) : Nat :=
  chunk.getD (4 * i) 0 + 256 * chunk.getD (4 * i + 1) 0 +
    65536 * chunk.getD (4 * i + 2) 0 + 16777216 * chunk.getD (4 * i + 3) 0

/-- One MD5 round (round index i from 0 to 63). -/
def md5Round (M : Nat → Nat) (st : MD5State) (i : Nat) : MD5State :=
  let f :=
    if i < 16 then (st.b &&& st.c) ||| (not32 st.b &&& st.d)
    else if i < 32 then (st.d &&& st.b) ||| (not32 st.d &&& st.c)
    else if i < 48 then st.b ^^^ st.c ^^^ st.d
    else st.c ^^^ (st.b ||| not32 st.d)
  let g :=
    if i < 16 then i
    else if i < 32 then (5 * i + 1) % 16
    else if i < 48 then (3 * i + 5) % 16
    else (7 * i) % 16
  let tmp := add32 (add32 (add32 f st.a) (md5K.getD i 0)) (M g)
  { a := st.d, b := add32 st.b (rotl32 tmp (md5S.getD i 0)), c := st.b, d := st.c }

/-- MD5 compression of one 64-byte chunk into the chaining state. -/
def md5Compress (st : MD5State) (chunk : List Nat) : MD5State :=
  let r := (List.range 64).foldl (md5Round (leWord chunk)) st
  { a := add32 st.a r.a, b := add32 st.b r.b, c := add32 st.c r.c, d := add32 st.d r.d }

/-- MD5 padding: 0x80, zeros to 56 mod 64, then the 64-bit little-endian
bit length. -/
def md5Pad (msg : List Nat) : List Nat :=
  let len := msg.length
  let k := (120 - (len % 64 + 1)) % 64
  msg ++ [128] ++ List.replicate k 0 ++
    (List.range 8).map (fun i => ((8 * len) >>> (8 * i)) % 256)

/-- Fold the compression over successive 64-byte chunks (fuel-guarded; fuel
at least the byte count suffices). -/
def md5Chunks : Nat → MD5State → List Nat → MD5State
  | _, st, [] => st
  | 0, st, _ => st
  | f+1, st, bs => md5Chunks f (md5Compress st (bs.take 64)) (bs.drop 64)

/-- The MD5 chaining state after absorbing a whole message. -/
def md5Words (msg : List Nat) : MD5State :=
  let padded := md5Pad msg
  md5Chunks padded.length
    { a := 0x67452301, b := 0xefcdab89, c := 0x98badcfe, d := 0x10325476 } padded

/-- Little-endian bytes of a 32-bit word. -/
def wordLEBytes (w : Nat) : List Nat :=
  [w % 256, w / 256 % 256, w / 65536 % 256, w / 16777216 % 256]

/-- Lowercase hex text of a byte list: bytes.hex() and hexdigest(). -/
def bytesToHex (bs : List Nat) : String :=
  String.mk ((bs.map (fun b => [hexDigitChar (b / 16), hexDigitChar b])).flatten)

/-- hashlib.md5(msg).hexdigest(). -/
def md5Hex (msg : List Nat) : String :=
  let st := md5Words msg
  bytesToHex (wordLEBytes st.a ++ wordLEBytes st.b ++ wordLEBytes st.c ++ wordLEBytes st.d)

/-- CacheManager._generate_cache_key: MD5 hexdigest of the UTF-8 encoded
params string. -/
def generate_cache_key (args : List PyVal) (kwargs : List (String × PyVal)) : String :=
  md5Hex (utf8Bytes (paramsStr args kwargs))

mutual
/-- CacheManager._is_json_serializable: json.dumps succeeds exactly on
None, bool, int, float, str and lists/dicts of such values. -/
def is_json_serializable : PyVal → Bool
  | .none => true
  | .bool _ => true
  | .int _ => true
  | .float _ => true
  | .str _ => true
  | .list xs => jsonableList xs
  | .dict ps => jsonablePairs ps
  | .obj _ _ => false
  | .func _ _ => false
def jsonableList : List PyVal → Bool
  | [] => true
  | v :: vs => is_json_serializable v && jsonableList vs
def jsonablePairs : List (String × PyVal) → Bool
  | [] => true
  | (_, v) :: ps => is_json_serializable v && jsonablePairs ps
end

mutual
/-- pickle.dumps succeeds on every modelled value except when a live
function/closure occurs somewhere inside it. -/
def picklable : PyVal → Bool
  | .func _ _ => false
  | .list xs => picklableList xs
  | .dict ps => picklablePairs ps
  | _ => true
def picklableList : List PyVal → Bool
  | [] => true
  | v :: vs => picklable v && picklableList vs
def picklablePairs : List (String × PyVal) → Bool
  | [] => true
  | (_, v) :: ps => picklable v && picklablePairs ps
end

/-- Self-delimiting byte encoding of a natural number: little-endian
base-255 digits closed by a 255 byte. -/
def encNat (n : Nat) : List Nat := digitsAux 255 n n ++ [255]

/-- Byte encoding of an integer: a sign byte then the magnitude. -/
def encInt (n : Int) : List Nat := (if n < 0 then 1 else 0) :: encNat n.natAbs

/-- Byte encoding of a character list: a length then each code point. -/
def encChars (cs : List Char) : List Nat :=
  encNat cs.length ++ (cs.map (fun c => encNat c.toNat)).flatten

mutual
/-- The byte serialization produced by the modelled pickle.dumps: one tag
byte per constructor followed by the constructor data. -/
def pEnc : PyVal → List Nat
  | .none => [0]
  | .bool b => [1, cond b 1 0]
  | .int n => 2 :: encInt n
  | .float r => 3 :: encChars r.data
  | .str s => 4 :: encChars s.data
  | .list xs => 5 :: (encNat xs.length ++ pEncList xs)
  | .dict ps => 6 :: (encNat ps.length ++ pEncPairs ps)
  | .obj cls addr => 7 :: (encChars cls.data ++ encNat addr)
  | .func nm addr => 8 :: (encChars nm.data ++ encNat addr)
def pEncList : List PyVal → List Nat
  | [] => []
  | v :: vs => pEnc v ++ pEncList vs
def pEncPairs : List (String × PyVal) → List Nat
  | [] => []
  | (k, v) :: ps => encChars k.data ++ (pEnc v ++ pEncPairs ps)
end

/-- Decode a self-delimited natural number, returning it with the rest of
the input. -/
def decNat : List Nat → Option (Nat × List Nat)
  | [] => Option.none
  | b :: bs =>
    if b = 255 then some (0, bs)
    else match decNat bs with
      | some (n, r) => some (b + 255 * n, r)
      | Option.none => Option.none

/-- Decode an integer: sign byte then magnitude. -/
def decInt : List Nat → Option (Int × List Nat)
  | [] => Option.none
  | s :: bs =>
    match decNat bs with
    | some (n, r) => some ((if s = 1 then -(n : Int) else (n : Int)), r)
    | Option.none => Option.none

/-- Decode a counted run of characters. -/
def decCharsN : Nat → List Nat → Option (List Char × List Nat)
  | 0, bs => some ([], bs)
  | k+1, bs =>
    match decNat bs with
    | some (n, r) =>
      match decCharsN k r with
      | some (cs, r2) => some (Char.ofNat n :: cs, r2)
      | Option.none => Option.none
    | Option.none => Option.none

/-- Decode a character list: length then code points. -/
def decChars (bs : List Nat) : Option (List Char × List Nat) :=
  match decNat bs with
  | some (len, r) => decCharsN len r
  | Option.none => Option.none

mutual
/-- Decoder of the modelled pickle byte format. The fuel bounds the
nesting depth; any fuel at least the encoded value's depth suffices. -/
def pDec : Nat → List Nat → Option (PyVal × List Nat)
  | 0, _ => Option.none
  | fuel+1, bs =>
    match bs with
    | 0 :: r => some (.none, r)
    | 1 :: b :: r => some (.bool (b == 1), r)
    | 2 :: r =>
      match decInt r with
      | some (n, r2) => some (.int n, r2)
      | Option.none => Option.none
    | 3 :: r =>
      match decChars r with
      | some (cs, r2) => some (.float (String.mk cs), r2)
      | Option.none => Option.none
    | 4 :: r =>
      match decChars r with
      | some (cs, r2) => some (.str (String.mk cs), r2)
      | Option.none => Option.none
    | 5 :: r =>
      match decNat r with
      | some (len, r2) =>
        match pDecList fuel len r2 with
        | some (xs, r3) => some (.list xs, r3)
        | Option.none => Option.none
      | Option.none => Option.none
    | 6 :: r =>
      match decNat r with
      | some (len, r2) =>
        match pDecPairs fuel len r2 with
        | some (ps, r3) => some (.dict ps, r3)
        | Option.none => Option.none
      | Option.none => Option.none
    | 7 :: r =>
      match decChars r with
      | some (cs, r2) =>
        match decNat r2 with
        | some (addr, r3) => some (.obj (String.mk cs) addr, r3)
        | Option.none => Option.none
      | Option.none => Option.none
    | 8 :: r =>
      match decChars r with
      | some (cs, r2) =>
        match decNat r2 with
        | some (addr, r3) => some (.func (String.mk cs) addr, r3)
        | Option.none => Option.none
      | Option.none => Option.none
    | _ => Option.none
def pDecList : Nat → Nat → List Nat → Option (List PyVal × List Nat)
  | _, 0, bs => some ([], bs)
  | 0, _+1, _ => Option.none
  | fuel+1, k+1, bs =>
    match pDec fuel bs with
    | some (v, r) =>
      match pDecList fuel k r with
      | some (vs, r2) => some (v :: vs, r2)
      | Option.none => Option.none
    | Option.none => Option.none
def pDecPairs : Nat → Nat → List Nat → Option (List (String × PyVal) × List Nat)
  | _, 0, bs => some ([], bs)
  | 0, _+1, _ => Option.none
  | fuel+1, k+1, bs =>
    match decChars bs with
    | some (cs, r) =>
      match pDec fuel r with
      | some (v, r2) =>
        match pDecPairs fuel k r2 with
        | some (ps, r3) => some ((String.mk cs, v) :: ps, r3)
        | Option.none => Option.none
      | Option.none => Option.none
    | Option.none => Option.none
end

mutual
/-- Nesting depth of a value; the fuel the decoder needs. -/
def pNeed : PyVal → Nat
  | .list xs => 1 + pNeedList xs
  | .dict ps => 1 + pNeedPairs ps
  | _ => 1
def pNeedList : List PyVal → Nat
  | [] => 0
  | v :: vs => 1 + max (pNeed v) (pNeedList vs)
def pNeedPairs : List (String × PyVal) → Nat
  | [] => 0
  | (_, v) :: ps => 1 + max (pNeed v) (pNeedPairs ps)
end

/-- pickle.dumps: fails (raises) exactly on values that contain a
function/closure; otherwise produces the byte encoding. -/
def pickle_dumps (v : PyVal) : Option (List Nat) :=
  if picklable v then some (pEnc v) else Option.none

/-- pickle.loads: decodes a byte string produced by pickle.dumps; anything
else fails (raises). -/
def pickle_loads (bs : List Nat) : Option PyVal :=
  match pDec (bs.length + 1) bs with
  | some (v, []) => some v
  | _ => Option.none

/-- bytes.hex(): two lowercase hex characters per byte. -/
def bytesHex (bs : List Nat) : String := bytesToHex bs

/-- Numeric value of one hex character, as bytes.fromhex accepts it. -/
def hexVal (c : Char) : Option Nat :=
  if 48 ≤ c.toNat && c.toNat ≤ 57 then some (c.toNat - 48)
  else if 97 ≤ c.toNat && c.toNat ≤ 102 then some (c.toNat - 87)
  else if 65 ≤ c.toNat && c.toNat ≤ 70 then some (c.toNat - 55)
  else Option.none

/-- bytes.fromhex on a character list: consume hex digit pairs; odd length
or a non-hex character raises ValueError (None here). -/
def fromhexCore : List Char → Option (List Nat)
  | [] => some []
  | [_] => Option.none
  | c1 :: c2 :: cs =>
    match hexVal c1, hexVal c2, fromhexCore cs with
    | some h, some l, some bs => some ((16 * h + l) :: bs)
    | _, _, _ => Option.none

/-- bytes.fromhex. -/
def fromhex (s : String) : Option (List Nat) := fromhexCore s.data

/-- A tagged payload as stored in the cache table: the JSON object with
keys "type" and "value". The value field is itself a JSON-representable
value, modelled as a PyVal. -/
structure Payload where
  tag : String
  value : PyVal

/-- CacheManager._serialize_value: the json / pickle / str cascade. -/
def serialize_value (v : PyVal) : Payload :=
  if is_json_serializable v then { tag := "json", value := v }
  else
    match pickle_dumps v with
    | some bs => { tag := "pickle", value := .str (bytesHex bs) }
    | Option.none => { tag := "string", value := .str (pyStr v) }

/-- The failure modes of reading one cache entry. The unknown-tag case is
the ValueError raised at the end of _deserialize_value (the hard
DeserializationError of the specification); the fromhex case is the
ValueError raised by bytes.fromhex on a malformed hex string; the
unpickling and wrong-field-type cases are the uncaught exceptions of
pickle.loads and bytes.fromhex on a non-string. All of them escape
get_cached_result. -/
inductive DeserializationError where
  | unknownTag (tag : String)
  | fromhexValueError
  | unpicklingError
  | typeError

/-- CacheManager._deserialize_value. -/
def deserialize_value (p : Payload) : Except DeserializationError PyVal :=
  if p.tag = "json" then .ok p.value
  else if p.tag = "pickle" then
    match p.value with
    | .str h =>
      match fromhex h with
      | some bs =>
        match pickle_loads bs with
        | some v => .ok v
        | Option.none => .error .unpicklingError
      | Option.none => .error .fromhexValueError
    | _ => .error .typeError
  else if p.tag = "string" then .ok p.value
  else .error (.unknownTag p.tag)

/-- The on-disk table file of one function: missing, present but not valid
JSON, or a parsed JSON object mapping fingerprint strings to payloads. -/
inductive FileState where
  | absent
  | invalid
  | table (t : List (String × Payload))

/-- Key lookup in the parsed table (dict access; keys are unique). -/
def lookupKey (k : String) : List (String × Payload) → Option Payload
  | [] => Option.none
  | (k', p) :: t => if k' = k then some p else lookupKey k t

/-- Python dict assignment on the parsed table: replace the entry with the
same key in place, or append a new entry. -/
def upsert (t : List (String × Payload)) (k : String) (p : Payload) :
    List (String × Payload) :=
  match t with
  | [] => [(k, p)]
  | (k', p') :: rest => if k' = k then (k, p) :: rest else (k', p') :: upsert rest k p

/-- CacheManager.get_cached_result for one function's table file. A missing
file, a file that fails JSON parsing (caught JSONDecodeError, logged), and
a missing fingerprint all yield None; a found entry is deserialized, and
any deserialization error (the re-raised ValueError, or the uncaught
pickle/type errors) propagates. The returned PyVal.none is the same value
Python uses both for a miss and for a cached None result. -/
def get_cached_result (disk : FileState) (args : List PyVal)
    (kwargs : List (String × PyVal)) : Except DeserializationError PyVal :=
  let cache_key := generate_cache_key args kwargs
  match disk with
  | .absent => .ok .none
  | .invalid => .ok .none
  | .table t =>
    match lookupKey cache_key t with
    | some p => deserialize_value p
    | Option.none => .ok .none

/-- Environmental failures that can hit the write path of
save_cached_result: an I/O error while reading an existing table file, a
failure to open the file for writing (permissions), and a failure while
dumping (disk full), which truncates the file into invalid JSON. -/
structure StoreEnv where
  readFails : Bool
  openWriteFails : Bool
  dumpFails : Bool

/-- No environmental failure. -/
def okEnv : StoreEnv := { readFails := false, openWriteFails := false, dumpFails := false }

/-- The errors the try block of save_cached_result can raise. -/
inductive StoreError where
  | jsonDecodeError
  | ioError

/-- The body of the try block in save_cached_result: read the existing
table (an existing but corrupt file raises JSONDecodeError; an I/O failure
raises), serialize the result (total), write the whole table back (an open
failure leaves the file as it was; a dump failure leaves it truncated,
hence invalid). On error the disk state at the moment of the raise is
carried alongside the exception. -/
def saveBody (env : StoreEnv) (disk : FileState) (args : List PyVal)
    (kwargs : List (String × PyVal)) (result : PyVal) :
    Except (StoreError × FileState) FileState :=
  let cache_key := generate_cache_key args kwargs
  match disk with
  | .invalid => .error (.jsonDecodeError, disk)
  | .absent =>
    if env.openWriteFails then .error (.ioError, disk)
    else if env.dumpFails then .error (.ioError, .invalid)
    else .ok (.table (upsert [] cache_key (serialize_value result)))
  | .table t =>
    if env.readFails then .error (.ioError, disk)
    else if env.openWriteFails then .error (.ioError, disk)
    else if env.dumpFails then .error (.ioError, .invalid)
    else .ok (.table (upsert t cache_key (serialize_value result)))

/-- CacheManager.save_cached_result: the try body wrapped in the
catch-everything handler, which logs and returns normally. The Bool
records whether an exception was caught (the error print). -/
def save_cached_result (env : StoreEnv) (disk : FileState) (args : List PyVal)
    (kwargs : List (String × PyVal)) (result : PyVal) : FileState × Bool :=
  match saveBody env disk args kwargs result with
  | .ok fs => (fs, false)
  | .error (_, fs) => (fs, true)

/-- The cache_result decorator applied to a pure function f, called once:
lookup, and on a miss (None) compute, store, and return the pair
(result, isFromCache). Errors escaping get_cached_result escape the
wrapper. The FileState threads the per-function table file. -/
def cache_result (f : List PyVal → List (String × PyVal) → PyVal) (env : StoreEnv)
    (disk : FileState) (args : List PyVal) (kwargs : List (String × PyVal)) :
    Except DeserializationError ((PyVal × Bool) × FileState) :=
  match get_cached_result disk args kwargs with
  | .error e => .error e
  | .ok cached =>
    match cached with
    | .none =>
      let result := f args kwargs
      let disk2 := (save_cached_result env disk args kwargs result).1
      .ok ((result, false), disk2)
    | v => .ok ((v, true), disk)

/-- The record returned by the cache_result_dict decorator. -/
structure CacheDictResult where
  result : PyVal
  isFromCache : Bool

/-- The cache_result_dict decorator applied to a pure function f, called
once: same logic as cache_result but returning the named-field record. -/
def cache_result_dict (f : List PyVal → List (String × PyVal) → PyVal) (env : StoreEnv)
    (disk : FileState) (args : List PyVal) (kwargs : List (String × PyVal)) :
    Except DeserializationError (CacheDictResult × FileState) :=
  match get_cached_result disk args kwargs with
  | .error e => .error e
  | .ok cached =>
    match cached with
    | .none =>
      let result := f args kwargs
      let disk2 := (save_cached_result env disk args kwargs result).1
      .ok ({ result := result, isFromCache := false }, disk2)
    | v => .ok ({ result := v, isFromCache := true }, disk)

/-- Value of a little-endian digit list in base b. -/
def unDigits (b : Nat) : List Nat → Nat
  | [] => 0
  | d :: ds => d + b * unDigits b ds

theorem digitsAux_spec (b : Nat) (hb : 2 ≤ b) :
    ∀ f n, n ≤ f → unDigits b (digitsAux b f n) = n := by
  intro f
  induction f with
  | zero =>
    intro n h
    interval_cases n
    rfl
  | succ f ih =>
    intro n h
    match n with
    | 0 => rfl
    | n+1 =>
      have hdiv : (n+1) / b ≤ f := by
        have : (n+1) / b < n + 1 := Nat.div_lt_self (Nat.succ_pos n) (by omega)
        omega
      simp only [digitsAux, unDigits, ih _ hdiv]
      have := Nat.mod_add_div (n+1) b
      omega

theorem digitsAux_lt (b : Nat) (hb : 0 < b) :
    ∀ f n d, d ∈ digitsAux b f n → d < b := by
  intro f
  induction f with
  | zero =>
    intro n d hd
    match n with
    | 0 => simp [digitsAux] at hd
    | n+1 => simp [digitsAux] at hd
  | succ f ih =>
    intro n d hd
    match n with
    | 0 => simp [digitsAux] at hd
    | n+1 =>
      simp only [digitsAux, List.mem_cons] at hd
      rcases hd with h | h
      · subst h
        exact Nat.mod_lt _ hb
      · exact ih _ _ h

theorem decNat_digits (rest : List Nat) :
    ∀ ds, (∀ d ∈ ds, d < 255) →
      decNat (ds ++ 255 :: rest) = some (unDigits 255 ds, rest) := by
  intro ds
  induction ds with
  | nil => intro _; simp [decNat, unDigits]
  | cons d ds ih =>
    intro h
    have hd : d < 255 := h d (List.mem_cons_self d ds)
    have hrest : ∀ x ∈ ds, x < 255 := fun x hx => h x (List.mem_cons_of_mem d hx)
    have hne : ¬ (d = 255) := by omega
    simp [List.cons_append, decNat, hne, ih hrest, unDigits]

theorem decNat_encNat (n : Nat) (rest : List Nat) :
    decNat (encNat n ++ rest) = some (n, rest) := by
  have h1 : ∀ d ∈ digitsAux 255 n n, d < 255 := fun d hd => digitsAux_lt 255 (by omega) n n d hd
  have h2 := decNat_digits rest (digitsAux 255 n n) h1
  have h3 : unDigits 255 (digitsAux 255 n n) = n := digitsAux_spec 255 (by omega) n n le_rfl
  simpa [encNat, h3] using h2

theorem encNat_lt (n : Nat) : ∀ d ∈ encNat n, d < 256 := by
  intro d hd
  simp only [encNat, List.mem_append, List.mem_singleton] at hd
  rcases hd with h | h
  · have := digitsAux_lt 255 (by omega) n n d h
    omega
  · omega

theorem decInt_encInt (n : Int) (rest : List Nat) :
    decInt (encInt n ++ rest) = some (n, rest) := by
  by_cases h : n < 0
  · simp only [encInt, if_pos h, List.cons_append, decInt, decNat_encNat]
    have habs : |n| = -n := abs_of_neg h
    simp [Int.natCast_natAbs, habs]
  · simp only [encInt, if_neg h, List.cons_append, decInt, decNat_encNat]
    have h0 : ¬ ((0 : Nat) = 1) := by omega
    have habs : |n| = n := abs_of_nonneg (by omega)
    simp [h0, Int.natCast_natAbs, habs]

theorem decCharsN_enc (cs : List Char) :
    ∀ rest, decCharsN cs.length ((cs.map (fun c => encNat c.toNat)).flatten ++ rest) =
      some (cs, rest) := by
  induction cs with
  | nil => intro rest; simp [decCharsN]
  | cons c cs ih =>
    intro rest
    simp only [List.map_cons, List.flatten_cons, List.length_cons, List.append_assoc]
    simp only [decCharsN, decNat_encNat, ih rest, Char.ofNat_toNat]

theorem decChars_encChars (cs : List Char) (rest : List Nat) :
    decChars (encChars cs ++ rest) = some (cs, rest) := by
  simp only [encChars, List.append_assoc, decChars, decNat_encNat, decCharsN_enc]

theorem encChars_lt (cs : List Char) : ∀ d ∈ encChars cs, d < 256 := by
  intro d hd
  simp only [encChars, List.mem_append, List.mem_flatten, List.mem_map] at hd
  rcases hd with h | ⟨l, ⟨c, _, hc⟩, hdl⟩
  · exact encNat_lt _ d h
  · exact encNat_lt c.toNat d (hc ▸ hdl)


theorem encInt_lt (n : Int) : ∀ d ∈ encInt n, d < 256 := by
  intro d hd
  simp only [encInt, List.mem_cons] at hd
  rcases hd with rfl | hd
  · split <;> omega
  · exact encNat_lt _ d hd

mutual
theorem pEnc_lt : ∀ (v : PyVal) (d : Nat), d ∈ pEnc v → d < 256
  | .none, d, hd => by simp only [pEnc, List.mem_singleton] at hd; omega
  | .bool b, d, hd => by
    have he : pEnc (.bool b) = [1, cond b 1 0] := rfl
    rw [he] at hd
    simp only [List.mem_cons, List.mem_singleton, List.not_mem_nil, or_false] at hd
    have hc : cond b 1 0 ≤ 1 := by cases b <;> simp
    rcases hd with rfl | rfl
    · omega
    · omega
  | .int n, d, hd => by
    simp only [pEnc, List.mem_cons] at hd
    rcases hd with rfl | hd
    · omega
    · exact encInt_lt n d hd
  | .float r, d, hd => by
    simp only [pEnc, List.mem_cons] at hd
    rcases hd with rfl | hd
    · omega
    · exact encChars_lt _ d hd
  | .str s, d, hd => by
    simp only [pEnc, List.mem_cons] at hd
    rcases hd with rfl | hd
    · omega
    · exact encChars_lt _ d hd
  | .list xs, d, hd => by
    simp only [pEnc, List.mem_cons, List.mem_append] at hd
    rcases hd with rfl | hd | hd
    · omega
    · exact encNat_lt _ d hd
    · exact pEncList_lt xs d hd
  | .dict ps, d, hd => by
    simp only [pEnc, List.mem_cons, List.mem_append] at hd
    rcases hd with rfl | hd | hd
    · omega
    · exact encNat_lt _ d hd
    · exact pEncPairs_lt ps d hd
  | .obj cls addr, d, hd => by
    simp only [pEnc, List.mem_cons, List.mem_append] at hd
    rcases hd with rfl | hd | hd
    · omega
    · exact encChars_lt _ d hd
    · exact encNat_lt _ d hd
  | .func nm addr, d, hd => by
    simp only [pEnc, List.mem_cons, List.mem_append] at hd
    rcases hd with rfl | hd | hd
    · omega
    · exact encChars_lt _ d hd
    · exact encNat_lt _ d hd
termination_by v d hd => sizeOf v
theorem pEncList_lt : ∀ (xs : List PyVal) (d : Nat), d ∈ pEncList xs → d < 256
  | [], d, hd => by simp [pEncList] at hd
  | v :: vs, d, hd => by
    simp only [pEncList, List.mem_append] at hd
    rcases hd with hd | hd
    · exact pEnc_lt v d hd
    · exact pEncList_lt vs d hd
termination_by xs d hd => sizeOf xs
theorem pEncPairs_lt : ∀ (ps : List (String × PyVal)) (d : Nat), d ∈ pEncPairs ps → d < 256
  | [], d, hd => by simp [pEncPairs] at hd
  | (k, v) :: ps, d, hd => by
    simp only [pEncPairs, List.mem_append] at hd
    rcases hd with hd | hd | hd
    · exact encChars_lt _ d hd
    · exact pEnc_lt v d hd
    · exact pEncPairs_lt ps d hd
termination_by ps d hd => sizeOf ps
end

theorem pEnc_length_pos (v : PyVal) : 1 ≤ (pEnc v).length := by
  cases v <;> simp [pEnc]

theorem encNat_length_pos (n : Nat) : 1 ≤ (encNat n).length := by
  simp [encNat]

mutual
theorem pNeed_le : ∀ v : PyVal, pNeed v ≤ (pEnc v).length
  | .none => by simp [pNeed, pEnc]
  | .bool b => by simp [pNeed, pEnc]
  | .int n => by simp [pNeed, pEnc]
  | .float r => by simp [pNeed, pEnc]
  | .str s => by simp [pNeed, pEnc]
  | .list xs => by
    have h1 := pNeedList_le xs
    have h2 := encNat_length_pos xs.length
    simp only [pNeed, pEnc, List.length_cons, List.length_append]
    omega
  | .dict ps => by
    have h1 := pNeedPairs_le ps
    have h2 := encNat_length_pos ps.length
    simp only [pNeed, pEnc, List.length_cons, List.length_append]
    omega
  | .obj cls addr => by simp [pNeed, pEnc]
  | .func nm addr => by simp [pNeed, pEnc]
termination_by v => sizeOf v
theorem pNeedList_le : ∀ xs : List PyVal, pNeedList xs ≤ (pEncList xs).length + 1
  | [] => by simp [pNeedList]
  | v :: vs => by
    have h1 := pNeed_le v
    have h2 := pNeedList_le vs
    have h3 := pEnc_length_pos v
    have h6 : max (pNeed v) (pNeedList vs) ≤ (pEnc v).length + (pEncList vs).length := by
      apply max_le
      · exact le_trans h1 (Nat.le_add_right _ _)
      · omega
    simp only [pNeedList, pEncList, List.length_append]
    omega
termination_by xs => sizeOf xs
theorem pNeedPairs_le : ∀ ps : List (String × PyVal), pNeedPairs ps ≤ (pEncPairs ps).length + 1
  | [] => by simp [pNeedPairs]
  | (k, v) :: ps => by
    have h1 := pNeed_le v
    have h2 := pNeedPairs_le ps
    have h3 := pEnc_length_pos v
    have h6 : max (pNeed v) (pNeedPairs ps) ≤ (pEnc v).length + (pEncPairs ps).length := by
      apply max_le
      · exact le_trans h1 (Nat.le_add_right _ _)
      · omega
    simp only [pNeedPairs, pEncPairs, List.length_append]
    omega
termination_by ps => sizeOf ps
end

theorem pNeed_pos (v : PyVal) : 1 ≤ pNeed v := by
  cases v <;> simp [pNeed]


theorem pDec_tag0 (fuel : Nat) (r : List Nat) : pDec (fuel+1) (0 :: r) = some (.none, r) := rfl

theorem pDec_tag1 (fuel b : Nat) (r : List Nat) :
    pDec (fuel+1) (1 :: b :: r) = some (.bool (b == 1), r) := rfl

theorem pDec_tag2 (fuel : Nat) (r : List Nat) : pDec (fuel+1) (2 :: r) =
    (match decInt r with
     | some (n, r2) => some (.int n, r2)
     | Option.none => Option.none) := rfl

theorem pDec_tag3 (fuel : Nat) (r : List Nat) : pDec (fuel+1) (3 :: r) =
    (match decChars r with
     | some (cs, r2) => some (.float (String.mk cs), r2)
     | Option.none => Option.none) := rfl

theorem pDec_tag4 (fuel : Nat) (r : List Nat) : pDec (fuel+1) (4 :: r) =
    (match decChars r with
     | some (cs, r2) => some (.str (String.mk cs), r2)
     | Option.none => Option.none) := rfl

theorem pDec_tag5 (fuel : Nat) (r : List Nat) : pDec (fuel+1) (5 :: r) =
    (match decNat r with
     | some (len, r2) =>
       match pDecList fuel len r2 with
       | some (xs, r3) => some (.list xs, r3)
       | Option.none => Option.none
     | Option.none => Option.none) := rfl

theorem pDec_tag6 (fuel : Nat) (r : List Nat) : pDec (fuel+1) (6 :: r) =
    (match decNat r with
     | some (len, r2) =>
       match pDecPairs fuel len r2 with
       | some (ps, r3) => some (.dict ps, r3)
       | Option.none => Option.none
     | Option.none => Option.none) := rfl

theorem pDec_tag7 (fuel : Nat) (r : List Nat) : pDec (fuel+1) (7 :: r) =
    (match decChars r with
     | some (cs, r2) =>
       match decNat r2 with
       | some (addr, r3) => some (.obj (String.mk cs) addr, r3)
       | Option.none => Option.none
     | Option.none => Option.none) := rfl

theorem pDec_tag8 (fuel : Nat) (r : List Nat) : pDec (fuel+1) (8 :: r) =
    (match decChars r with
     | some (cs, r2) =>
       match decNat r2 with
       | some (addr, r3) => some (.func (String.mk cs) addr, r3)
       | Option.none => Option.none
     | Option.none => Option.none) := rfl

theorem pDecList_z (fuel : Nat) (bs : List Nat) : pDecList fuel 0 bs = some ([], bs) := by
  cases fuel <;> rfl

theorem pDecList_s (fuel k : Nat) (bs : List Nat) : pDecList (fuel+1) (k+1) bs =
    (match pDec fuel bs with
     | some (v, r) =>
       match pDecList fuel k r with
       | some (vs, r2) => some (v :: vs, r2)
       | Option.none => Option.none
     | Option.none => Option.none) := rfl

theorem pDecPairs_z (fuel : Nat) (bs : List Nat) : pDecPairs fuel 0 bs = some ([], bs) := by
  cases fuel <;> rfl

theorem pDecPairs_s (fuel k : Nat) (bs : List Nat) : pDecPairs (fuel+1) (k+1) bs =
    (match decChars bs with
     | some (cs, r) =>
       match pDec fuel r with
       | some (v, r2) =>
         match pDecPairs fuel k r2 with
         | some (ps, r3) => some ((String.mk cs, v) :: ps, r3)
         | Option.none => Option.none
       | Option.none => Option.none
     | Option.none => Option.none) := rfl

theorem pDec_sound : ∀ fuel : Nat,
    (∀ (v : PyVal) (rest : List Nat), pNeed v ≤ fuel →
      pDec fuel (pEnc v ++ rest) = some (v, rest))
    ∧ (∀ (xs : List PyVal) (rest : List Nat), pNeedList xs ≤ fuel →
      pDecList fuel xs.length (pEncList xs ++ rest) = some (xs, rest))
    ∧ (∀ (ps : List (String × PyVal)) (rest : List Nat), pNeedPairs ps ≤ fuel →
      pDecPairs fuel ps.length (pEncPairs ps ++ rest) = some (ps, rest)) := by
  intro fuel
  induction fuel with
  | zero =>
    refine ⟨?_, ?_, ?_⟩
    · intro v rest h
      have := pNeed_pos v
      omega
    · intro xs rest h
      cases xs with
      | nil => simp [pEncList, pDecList_z]
      | cons v vs => simp [pNeedList] at h
    · intro ps rest h
      cases ps with
      | nil => simp [pEncPairs, pDecPairs_z]
      | cons kv ps =>
        obtain ⟨k, w⟩ := kv
        simp [pNeedPairs] at h
  | succ fuel ih =>
    obtain ⟨A, B, C⟩ := ih
    refine ⟨?_, ?_, ?_⟩
    · intro v rest h
      cases v with
      | none =>
        show pDec (fuel+1) ([0] ++ rest) = some (.none, rest)
        simp [pDec_tag0]
      | bool b =>
        show pDec (fuel+1) ([1, cond b 1 0] ++ rest) = some (.bool b, rest)
        cases b <;> simp [pDec_tag1]
      | int n =>
        show pDec (fuel+1) ((2 :: encInt n) ++ rest) = some (.int n, rest)
        rw [List.cons_append, pDec_tag2, decInt_encInt]
      | float fr =>
        show pDec (fuel+1) ((3 :: encChars fr.data) ++ rest) = some (.float fr, rest)
        rw [List.cons_append, pDec_tag3, decChars_encChars]
      | str s =>
        show pDec (fuel+1) ((4 :: encChars s.data) ++ rest) = some (.str s, rest)
        rw [List.cons_append, pDec_tag4, decChars_encChars]
      | list xs =>
        have hx : pNeedList xs ≤ fuel := by
          simp only [pNeed] at h
          omega
        show pDec (fuel+1) ((5 :: (encNat xs.length ++ pEncList xs)) ++ rest) =
          some (.list xs, rest)
        rw [List.cons_append, List.append_assoc, pDec_tag5, decNat_encNat]
        simp [B xs rest hx]
      | dict ps =>
        have hx : pNeedPairs ps ≤ fuel := by
          simp only [pNeed] at h
          omega
        show pDec (fuel+1) ((6 :: (encNat ps.length ++ pEncPairs ps)) ++ rest) =
          some (.dict ps, rest)
        rw [List.cons_append, List.append_assoc, pDec_tag6, decNat_encNat]
        simp [C ps rest hx]
      | obj cls addr =>
        show pDec (fuel+1) ((7 :: (encChars cls.data ++ encNat addr)) ++ rest) =
          some (.obj cls addr, rest)
        rw [List.cons_append, List.append_assoc, pDec_tag7, decChars_encChars]
        simp [decNat_encNat]
      | func nm addr =>
        show pDec (fuel+1) ((8 :: (encChars nm.data ++ encNat addr)) ++ rest) =
          some (.func nm addr, rest)
        rw [List.cons_append, List.append_assoc, pDec_tag8, decChars_encChars]
        simp [decNat_encNat]
    · intro xs rest h
      cases xs with
      | nil => simp [pEncList, pDecList_z]
      | cons v vs =>
        have hv : pNeed v ≤ fuel := by
          simp only [pNeedList] at h
          have := le_max_left (pNeed v) (pNeedList vs)
          omega
        have hvs : pNeedList vs ≤ fuel := by
          simp only [pNeedList] at h
          have := le_max_right (pNeed v) (pNeedList vs)
          omega
        show pDecList (fuel+1) (vs.length + 1) ((pEnc v ++ pEncList vs) ++ rest) =
          some (v :: vs, rest)
        rw [List.append_assoc, pDecList_s, A v (pEncList vs ++ rest) hv]
        simp [B vs rest hvs]
    · intro ps rest h
      cases ps with
      | nil => simp [pEncPairs, pDecPairs_z]
      | cons kv ps =>
        obtain ⟨k, w⟩ := kv
        have hv : pNeed w ≤ fuel := by
          simp only [pNeedPairs] at h
          have := le_max_left (pNeed w) (pNeedPairs ps)
          omega
        have hps : pNeedPairs ps ≤ fuel := by
          simp only [pNeedPairs] at h
          have := le_max_right (pNeed w) (pNeedPairs ps)
          omega
        show pDecPairs (fuel+1) (ps.length + 1)
          ((encChars k.data ++ (pEnc w ++ pEncPairs ps)) ++ rest) =
          some ((k, w) :: ps, rest)
        rw [List.append_assoc, List.append_assoc, pDecPairs_s, decChars_encChars]
        simp [A w (pEncPairs ps ++ rest) hv, C ps rest hps]

theorem pickle_loads_pEnc (v : PyVal) : pickle_loads (pEnc v) = some v := by
  have hle : pNeed v ≤ (pEnc v).length + 1 := by
    have := pNeed_le v
    omega
  have h := (pDec_sound ((pEnc v).length + 1)).1 v [] hle
  simp only [List.append_nil] at h
  simp [pickle_loads, h]

set_option maxRecDepth 8192 in
theorem hexVal_hexDigitChar : ∀ d : Nat, d < 256 → hexVal (hexDigitChar d) = some (d % 16) := by
  decide

theorem fromhexCore_bytes : ∀ bs : List Nat, (∀ b ∈ bs, b < 256) →
    fromhexCore ((bs.map (fun b => [hexDigitChar (b / 16), hexDigitChar b])).flatten) =
      some bs := by
  intro bs
  induction bs with
  | nil => intro _; simp [fromhexCore]
  | cons b bs ih =>
    intro h
    have hb : b < 256 := h b (List.mem_cons_self b bs)
    have hrest : ∀ x ∈ bs, x < 256 := fun x hx => h x (List.mem_cons_of_mem b hx)
    have h1 := hexVal_hexDigitChar (b / 16) (by omega)
    have h2 := hexVal_hexDigitChar b hb
    have hmod : b / 16 % 16 = b / 16 := Nat.mod_eq_of_lt (by omega)
    rw [hmod] at h1
    simp only [List.map_cons, List.flatten_cons, List.cons_append, List.nil_append]
    show (match hexVal (hexDigitChar (b / 16)), hexVal (hexDigitChar b),
        fromhexCore ((bs.map (fun b => [hexDigitChar (b / 16), hexDigitChar b])).flatten) with
      | some h, some l, some bs2 => some ((16 * h + l) :: bs2)
      | _, _, _ => Option.none) = some (b :: bs)
    rw [h1, h2, ih hrest]
    have hval : 16 * (b / 16) + b % 16 = b := by omega
    simp [hval]

theorem fromhex_bytesHex (bs : List Nat) (h : ∀ b ∈ bs, b < 256) :
    fromhex (bytesHex bs) = some bs := by
  simpa [fromhex, bytesHex, bytesToHex] using fromhexCore_bytes bs h

theorem deserialize_value_json (v : PyVal) :
    deserialize_value { tag := "json", value := v } = .ok v := rfl

theorem deserialize_value_pickle (h : String) :
    deserialize_value { tag := "pickle", value := .str h } =
      (match fromhex h with
       | some bs =>
         match pickle_loads bs with
         | some v => .ok v
         | Option.none => .error .unpicklingError
       | Option.none => .error .fromhexValueError) := rfl

theorem deserialize_value_string (v : PyVal) :
    deserialize_value { tag := "string", value := v } = .ok v := rfl

theorem deserialize_value_unknown (tag : String) (v : PyVal)
    (h1 : tag ≠ "json") (h2 : tag ≠ "pickle") (h3 : tag ≠ "string") :
    deserialize_value { tag := tag, value := v } = .error (.unknownTag tag) := by
  simp [deserialize_value, h1, h2, h3]

theorem serialize_value_json (v : PyVal) (h : is_json_serializable v = true) :
    serialize_value v = { tag := "json", value := v } := by
  simp [serialize_value, h]

theorem serialize_value_pickle (v : PyVal) (hj : is_json_serializable v = false)
    (hp : picklable v = true) :
    serialize_value v = { tag := "pickle", value := .str (bytesHex (pEnc v)) } := by
  simp [serialize_value, hj, pickle_dumps, hp]

theorem serialize_value_string (v : PyVal) (hj : is_json_serializable v = false)
    (hp : picklable v = false) :
    serialize_value v = { tag := "string", value := .str (pyStr v) } := by
  simp [serialize_value, hj, pickle_dumps, hp]

theorem roundtrip_json (v : PyVal) (h : is_json_serializable v = true) :
    deserialize_value (serialize_value v) = .ok v := by
  rw [serialize_value_json v h]
  exact deserialize_value_json v

theorem roundtrip_pickle (v : PyVal) (hj : is_json_serializable v = false)
    (hp : picklable v = true) :
    deserialize_value (serialize_value v) = .ok v := by
  rw [serialize_value_pickle v hj hp, deserialize_value_pickle,
    fromhex_bytesHex (pEnc v) (fun d hd => pEnc_lt v d hd)]
  simp [pickle_loads_pEnc]

theorem roundtrip_string (v : PyVal) (hj : is_json_serializable v = false)
    (hp : picklable v = false) :
    deserialize_value (serialize_value v) = .ok (.str (pyStr v)) := by
  rw [serialize_value_string v hj hp]
  exact deserialize_value_string _

theorem roundtrip_of_serializable (v : PyVal)
    (h : is_json_serializable v = true ∨ picklable v = true) :
    deserialize_value (serialize_value v) = .ok v := by
  rcases h with h | h
  · exact roundtrip_json v h
  · cases hj : is_json_serializable v with
    | true => exact roundtrip_json v hj
    | false => exact roundtrip_pickle v hj h

theorem pyStr_length_pos (v : PyVal) (hj : is_json_serializable v = false) :
    0 < (pyStr v).length := by
  cases v with
  | none => simp [is_json_serializable] at hj
  | bool b => simp [is_json_serializable] at hj
  | int n => simp [is_json_serializable] at hj
  | float r => simp [is_json_serializable] at hj
  | str s => simp [is_json_serializable] at hj
  | list xs =>
    simp only [pyStr, pyRepr, String.length_append]
    have h1 : 0 < "[".length := by decide
    omega
  | dict ps =>
    simp only [pyStr, pyRepr, String.length_append]
    have h1 : 0 < "\x7b".length := by decide
    omega
  | obj cls addr =>
    simp only [pyStr, pyRepr, String.length_append]
    have h1 : 0 < "<".length := by decide
    omega
  | func nm addr =>
    simp only [pyStr, pyRepr, String.length_append]
    have h1 : 0 < "<function ".length := by decide
    omega

theorem strLtCore_asymm : ∀ x y : List Char, strLtCore x y = true → strLtCore y x = false := by
  intro x
  induction x with
  | nil =>
    intro y h
    cases y with
    | nil => simp [strLtCore] at h
    | cons d ds => simp [strLtCore]
  | cons c cs ih =>
    intro y h
    cases y with
    | nil => simp [strLtCore] at h
    | cons d ds =>
      by_cases h1 : c.toNat < d.toNat
      · have h2 : ¬ d.toNat < c.toNat := by omega
        simp [strLtCore, h1, h2]
      · by_cases h2 : d.toNat < c.toNat
        · simp [strLtCore, h1, h2] at h
        · simp only [strLtCore, if_neg h1, if_neg h2] at h ⊢
          exact ih ds h

theorem strLtCore_conn : ∀ x y : List Char,
    strLtCore x y = false → strLtCore y x = false → x = y := by
  intro x
  induction x with
  | nil =>
    intro y h1 h2
    cases y with
    | nil => rfl
    | cons d ds => simp [strLtCore] at h1
  | cons c cs ih =>
    intro y h1 h2
    cases y with
    | nil => simp [strLtCore] at h2
    | cons d ds =>
      by_cases hc : c.toNat < d.toNat
      · simp [strLtCore, hc] at h1
      · by_cases hd : d.toNat < c.toNat
        · simp [strLtCore, hd] at h2
        · simp only [strLtCore, if_neg hc, if_neg hd] at h1 h2
          have hcd : c.toNat = d.toNat := by omega
          have hc2 : c = d := by
            have := Char.ofNat_toNat c
            rw [hcd, Char.ofNat_toNat] at this
            exact this.symm
          rw [hc2, ih ds h1 h2]

theorem strLtCore_trans : ∀ x y z : List Char,
    strLtCore x y = true → strLtCore y z = true → strLtCore x z = true := by
  intro x
  induction x with
  | nil =>
    intro y z h1 h2
    cases y with
    | nil => simp [strLtCore] at h1
    | cons d ds =>
      cases z with
      | nil => simp [strLtCore] at h2
      | cons e es => simp [strLtCore]
  | cons c cs ih =>
    intro y z h1 h2
    cases y with
    | nil => simp [strLtCore] at h1
    | cons d ds =>
      cases z with
      | nil => simp [strLtCore] at h2
      | cons e es =>
        by_cases hcd : c.toNat < d.toNat
        · by_cases hde : d.toNat < e.toNat
          · have : c.toNat < e.toNat := by omega
            simp [strLtCore, this]
          · by_cases hed : e.toNat < d.toNat
            · simp [strLtCore, hde, hed] at h2
            · have : c.toNat < e.toNat := by omega
              simp [strLtCore, this]
        · by_cases hdc : d.toNat < c.toNat
          · simp [strLtCore, hcd, hdc] at h1
          · by_cases hde : d.toNat < e.toNat
            · have h3 : c.toNat < e.toNat := by omega
              simp [strLtCore, h3]
            · by_cases hed : e.toNat < d.toNat
              · simp [strLtCore, hde, hed] at h2
              · have h3 : ¬ c.toNat < e.toNat := by omega
                have h4 : ¬ e.toNat < c.toNat := by omega
                simp only [strLtCore, if_neg hcd, if_neg hdc] at h1
                simp only [strLtCore, if_neg hde, if_neg hed] at h2
                simp only [strLtCore, if_neg h3, if_neg h4]
                exact ih ds es h1 h2

theorem strLt_asymm (a b : String) (h : strLt a b = true) : strLt b a = false :=
  strLtCore_asymm a.data b.data h

theorem strLt_conn (a b : String) (h1 : strLt a b = false) (h2 : strLt b a = false) : a = b := by
  have h3 := strLtCore_conn a.data b.data h1 h2
  cases a
  cases b
  exact congrArg String.mk h3

theorem strLt_trans (a b c : String) (h1 : strLt a b = true) (h2 : strLt b c = true) :
    strLt a c = true :=
  strLtCore_trans a.data b.data c.data h1 h2

/-- The nonstrict key order the insertion sort produces. -/
def keyLe (a b : String × PyVal) : Prop := strLt b.1 a.1 = false

/-- The strict key order (keys pairwise distinct). -/
def keyLt (a b : String × PyVal) : Prop := strLt a.1 b.1 = true

theorem insertPair_perm (x : String × PyVal) :
    ∀ l : List (String × PyVal), List.Perm (insertPair x l) (x :: l) := by
  intro l
  induction l with
  | nil => simp [insertPair]
  | cons y t ih =>
    by_cases h : strLt x.1 y.1 = true
    · rw [insertPair, if_pos h]
    · simp only [insertPair, if_neg h]
      exact (List.Perm.cons y ih).trans (List.Perm.swap x y t)

theorem sortPairs_perm : ∀ l : List (String × PyVal), List.Perm (sortPairs l) l := by
  intro l
  induction l with
  | nil => simp [sortPairs]
  | cons x t ih =>
    exact (insertPair_perm x (sortPairs t)).trans (List.Perm.cons x ih)

theorem insertPair_pairwise (x : String × PyVal) (l : List (String × PyVal))
    (h : List.Pairwise keyLe l) : List.Pairwise keyLe (insertPair x l) := by
  induction l with
  | nil => simp [insertPair]
  | cons y t ih =>
    rw [List.pairwise_cons] at h
    obtain ⟨hy, ht⟩ := h
    by_cases hlt : strLt x.1 y.1 = true
    · rw [insertPair, if_pos hlt, List.pairwise_cons]
      constructor
      · intro z hz
        rcases List.mem_cons.mp hz with rfl | hz
        · exact strLt_asymm _ _ hlt
        · show strLt z.1 x.1 = false
          cases hh : strLt z.1 x.1
          · rfl
          · exfalso
            have h3 : strLt z.1 y.1 = true := strLt_trans _ _ _ hh hlt
            have h4 : strLt z.1 y.1 = false := hy z hz
            rw [h3] at h4
            exact absurd h4 (by simp)
      · rw [List.pairwise_cons]
        exact ⟨hy, ht⟩
    · rw [insertPair, if_neg hlt, List.pairwise_cons]
      constructor
      · intro z hz
        have hz2 : z ∈ x :: t := (insertPair_perm x t).mem_iff.mp hz
        rcases List.mem_cons.mp hz2 with rfl | hz2
        · show strLt z.1 y.1 = false
          cases hh : strLt z.1 y.1
          · rfl
          · exact absurd hh hlt
        · exact hy z hz2
      · exact ih ht

theorem sortPairs_pairwise : ∀ l : List (String × PyVal), List.Pairwise keyLe (sortPairs l) := by
  intro l
  induction l with
  | nil => simp [sortPairs]
  | cons x t ih => exact insertPair_pairwise x (sortPairs t) ih

theorem pairwise_keyLt_of_nodup (l : List (String × PyVal))
    (h : List.Pairwise keyLe l) (hnd : (l.map Prod.fst).Nodup) :
    List.Pairwise keyLt l := by
  have hnd2 : List.Pairwise (fun a b : String × PyVal => a.1 ≠ b.1) l :=
    List.pairwise_map.mp hnd
  have hand := h.and hnd2
  refine hand.imp ?_
  intro a b hab
  obtain ⟨hle, hne⟩ := hab
  show strLt a.1 b.1 = true
  cases hh : strLt a.1 b.1
  · exact absurd (strLt_conn a.1 b.1 hh hle) hne
  · rfl

theorem sortPairs_eq_of_perm (l1 l2 : List (String × PyVal)) (hp : List.Perm l1 l2)
    (hnd : (l1.map Prod.fst).Nodup) : sortPairs l1 = sortPairs l2 := by
  have p1 := sortPairs_perm l1
  have p2 := sortPairs_perm l2
  have hp12 : List.Perm (sortPairs l1) (sortPairs l2) := p1.trans (hp.trans p2.symm)
  have hnd1 : ((sortPairs l1).map Prod.fst).Nodup :=
    ((p1.map Prod.fst).nodup_iff).mpr hnd
  have hnd2 : ((sortPairs l2).map Prod.fst).Nodup :=
    ((hp12.map Prod.fst).nodup_iff).mp hnd1
  have s1 : List.Pairwise keyLt (sortPairs l1) :=
    pairwise_keyLt_of_nodup _ (sortPairs_pairwise l1) hnd1
  have s2 : List.Pairwise keyLt (sortPairs l2) :=
    pairwise_keyLt_of_nodup _ (sortPairs_pairwise l2) hnd2
  haveI : IsAntisymm (String × PyVal) keyLt := by
    constructor
    intro a b hab hba
    have h5 := strLt_asymm _ _ hab
    have h6 : strLt b.1 a.1 = true := hba
    rw [h6] at h5
    exact absurd h5 (by simp)
  exact List.eq_of_perm_of_sorted hp12 s1 s2

theorem generate_cache_key_perm (args : List PyVal) (kw1 kw2 : List (String × PyVal))
    (hp : List.Perm kw1 kw2) (hnd : (kw1.map Prod.fst).Nodup) :
    generate_cache_key args kw1 = generate_cache_key args kw2 := by
  unfold generate_cache_key paramsStr kwargsStr
  rw [sortPairs_eq_of_perm kw1 kw2 hp hnd]

theorem m32_pos : 0 < m32 := by norm_num [m32]

theorem add32_lt (a b : Nat) : add32 a b < m32 := Nat.mod_lt _ m32_pos

theorem md5Compress_lt (st : MD5State) (chunk : List Nat) :
    (md5Compress st chunk).a < m32 ∧ (md5Compress st chunk).b < m32 ∧
    (md5Compress st chunk).c < m32 ∧ (md5Compress st chunk).d < m32 := by
  refine ⟨add32_lt _ _, add32_lt _ _, add32_lt _ _, add32_lt _ _⟩

theorem md5Chunks_lt : ∀ (f : Nat) (st : MD5State) (bs : List Nat),
    st.a < m32 → st.b < m32 → st.c < m32 → st.d < m32 →
    (md5Chunks f st bs).a < m32 ∧ (md5Chunks f st bs).b < m32 ∧
    (md5Chunks f st bs).c < m32 ∧ (md5Chunks f st bs).d < m32 := by
  intro f
  induction f with
  | zero =>
    intro st bs h1 h2 h3 h4
    cases bs <;> exact ⟨h1, h2, h3, h4⟩
  | succ f ih =>
    intro st bs h1 h2 h3 h4
    cases bs with
    | nil => exact ⟨h1, h2, h3, h4⟩
    | cons b t =>
      have hc := md5Compress_lt st ((b :: t).take 64)
      exact ih _ _ hc.1 hc.2.1 hc.2.2.1 hc.2.2.2

theorem md5Words_lt (msg : List Nat) :
    (md5Words msg).a < m32 ∧ (md5Words msg).b < m32 ∧
    (md5Words msg).c < m32 ∧ (md5Words msg).d < m32 := by
  unfold md5Words
  exact md5Chunks_lt _ _ _ (by norm_num [m32]) (by norm_num [m32])
    (by norm_num [m32]) (by norm_num [m32])

theorem md5Hex_congr (m1 m2 : List Nat) (h : md5Words m1 = md5Words m2) :
    md5Hex m1 = md5Hex m2 := by
  unfold md5Hex
  rw [h]

theorem lookupKey_upsert_self (t : List (String × Payload)) (k : String) (p : Payload) :
    lookupKey k (upsert t k p) = some p := by
  induction t with
  | nil => simp [upsert, lookupKey]
  | cons e t ih =>
    obtain ⟨k', p'⟩ := e
    by_cases h : k' = k
    · simp [upsert, h, lookupKey]
    · simp [upsert, h, lookupKey, ih]

theorem lookupKey_upsert_other (t : List (String × Payload)) (k k2 : String) (p : Payload)
    (h : k2 ≠ k) : lookupKey k2 (upsert t k p) = lookupKey k2 t := by
  induction t with
  | nil =>
    have hne : ¬ k = k2 := fun hh => h hh.symm
    simp [upsert, lookupKey, hne]
  | cons e t ih =>
    obtain ⟨k', p'⟩ := e
    by_cases hk : k' = k
    · subst hk
      have hne : ¬ k' = k2 := fun hh => h hh.symm
      simp [upsert, lookupKey, hne]
    · simp [upsert, hk, lookupKey, ih]

theorem save_okEnv_absent (a : List PyVal) (kw : List (String × PyVal)) (r : PyVal) :
    save_cached_result okEnv .absent a kw r =
      (.table [(generate_cache_key a kw, serialize_value r)], false) := rfl

theorem save_okEnv_table (t : List (String × Payload)) (a : List PyVal)
    (kw : List (String × PyVal)) (r : PyVal) :
    save_cached_result okEnv (.table t) a kw r =
      (.table (upsert t (generate_cache_key a kw) (serialize_value r)), false) := rfl

theorem get_cached_result_absent (a : List PyVal) (kw : List (String × PyVal)) :
    get_cached_result .absent a kw = .ok .none := rfl

theorem get_cached_result_invalid (a : List PyVal) (kw : List (String × PyVal)) :
    get_cached_result .invalid a kw = .ok .none := rfl

theorem get_cached_result_table (t : List (String × Payload)) (a : List PyVal)
    (kw : List (String × PyVal)) :
    get_cached_result (.table t) a kw =
      (match lookupKey (generate_cache_key a kw) t with
       | some p => deserialize_value p
       | Option.none => .ok .none) := rfl

theorem cache_result_miss (f : List PyVal → List (String × PyVal) → PyVal) (env : StoreEnv)
    (disk : FileState) (a : List PyVal) (kw : List (String × PyVal))
    (h : get_cached_result disk a kw = .ok .none) :
    cache_result f env disk a kw =
      .ok ((f a kw, false), (save_cached_result env disk a kw (f a kw)).1) := by
  simp [cache_result, h]

theorem cache_result_hit (f : List PyVal → List (String × PyVal) → PyVal) (env : StoreEnv)
    (disk : FileState) (a : List PyVal) (kw : List (String × PyVal)) (v : PyVal)
    (h : get_cached_result disk a kw = .ok v) (hne : v ≠ .none) :
    cache_result f env disk a kw = .ok ((v, true), disk) := by
  rw [cache_result, h]
  cases v <;> first
    | exact absurd rfl hne
    | rfl

theorem cache_result_dict_miss (f : List PyVal → List (String × PyVal) → PyVal) (env : StoreEnv)
    (disk : FileState) (a : List PyVal) (kw : List (String × PyVal))
    (h : get_cached_result disk a kw = .ok .none) :
    cache_result_dict f env disk a kw =
      .ok ({ result := f a kw, isFromCache := false },
        (save_cached_result env disk a kw (f a kw)).1) := by
  simp [cache_result_dict, h]

theorem cache_result_dict_hit (f : List PyVal → List (String × PyVal) → PyVal) (env : StoreEnv)
    (disk : FileState) (a : List PyVal) (kw : List (String × PyVal)) (v : PyVal)
    (h : get_cached_result disk a kw = .ok v) (hne : v ≠ .none) :
    cache_result_dict f env disk a kw = .ok ({ result := v, isFromCache := true }, disk) := by
  rw [cache_result_dict, h]
  cases v <;> first
    | exact absurd rfl hne
    | rfl

/-- Entry lookup through the file state: the cache table entry a key maps
to, if the file is a parsed table containing it. -/
def lookupDisk (k : String) : FileState → Option Payload
  | .table t => lookupKey k t
  | _ => Option.none

theorem MD5State_eq (s1 s2 : MD5State) (h1 : s1.a = s2.a) (h2 : s1.b = s2.b)
    (h3 : s1.c = s2.c) (h4 : s1.d = s2.d) : s1 = s2 := by
  cases s1
  cases s2
  simp_all

/-- Claim C2: fingerprint derivation is deterministic — two calls whose
positional arguments are equal and whose keyword dictionaries hold the
same (name, value) associations, in whatever order, yield the same MD5
hexdigest string; in particular the fingerprint does not depend on the
order in which named arguments are given (the keys of a kwargs dict are
pairwise distinct). -/
theorem fingerprint_deterministic (args : List PyVal) (kw1 kw2 : List (String × PyVal))
    (hperm : List.Perm kw1 kw2) (hnd : (kw1.map Prod.fst).Nodup) :
    generate_cache_key args kw1 = generate_cache_key args kw2 :=
  generate_cache_key_perm args kw1 kw2 hperm hnd

/-- Claim C2 witness: the same two keyword arguments given in either order
produce the same fingerprint. -/
theorem fingerprint_deterministic_witness :
    generate_cache_key [PyVal.int 1] [("b", PyVal.int 2), ("a", PyVal.str "x")] =
      generate_cache_key [PyVal.int 1] [("a", PyVal.str "x"), ("b", PyVal.int 2)] :=
  fingerprint_deterministic [PyVal.int 1] _ _
    (List.Perm.swap ("a", PyVal.str "x") ("b", PyVal.int 2) [])
    (by simp)

/-- Claim C3: serialization round-trips for the lossless kinds — a
JSON-representable value is stored under the json tag and deserializes to
an equal value; a non-JSON-representable but picklable value is stored
under the pickle tag (hex-encoded bytes) and deserializes to an equal
value; only the string-tagged fallback is lossy, deserializing back to the
stored string representation. -/
theorem serialize_roundtrip_lossless (v : PyVal) :
    (is_json_serializable v = true →
      serialize_value v = { tag := "json", value := v } ∧
      deserialize_value (serialize_value v) = .ok v)
    ∧ (is_json_serializable v = false → picklable v = true →
      serialize_value v = { tag := "pickle", value := .str (bytesHex (pEnc v)) } ∧
      deserialize_value (serialize_value v) = .ok v)
    ∧ (is_json_serializable v = false → picklable v = false →
      serialize_value v = { tag := "string", value := .str (pyStr v) } ∧
      deserialize_value (serialize_value v) = .ok (.str (pyStr v))) := by
  refine ⟨fun h => ⟨serialize_value_json v h, roundtrip_json v h⟩,
    fun hj hp => ⟨serialize_value_pickle v hj hp, roundtrip_pickle v hj hp⟩,
    fun hj hp => ⟨serialize_value_string v hj hp, roundtrip_string v hj hp⟩⟩

/-- Claim C3 witness: a class instance is not JSON-serializable but is
picklable, and round-trips through the pickle-tagged payload. -/
theorem serialize_roundtrip_lossless_witness :
    serialize_value (PyVal.obj "Widget" 7) =
      { tag := "pickle", value := .str (bytesHex (pEnc (PyVal.obj "Widget" 7))) } ∧
    deserialize_value (serialize_value (PyVal.obj "Widget" 7)) = .ok (PyVal.obj "Widget" 7) :=
  (serialize_roundtrip_lossless (PyVal.obj "Widget" 7)).2.1 rfl rfl

/-- Claim C4: the serialization cascade in store is total — JSON first,
then pickle, then the string fallback whose stored text is non-empty; the
result always carries one of the three known tags, so no value makes
serialization raise. -/
theorem serialize_cascade_total (v : PyVal) :
    (is_json_serializable v = true → serialize_value v = { tag := "json", value := v })
    ∧ (is_json_serializable v = false → picklable v = true →
        serialize_value v = { tag := "pickle", value := .str (bytesHex (pEnc v)) })
    ∧ (is_json_serializable v = false → picklable v = false →
        serialize_value v = { tag := "string", value := .str (pyStr v) } ∧
        0 < (pyStr v).length)
    ∧ ((serialize_value v).tag = "json" ∨ (serialize_value v).tag = "pickle" ∨
        (serialize_value v).tag = "string") := by
  refine ⟨fun h => serialize_value_json v h,
    fun hj hp => serialize_value_pickle v hj hp,
    fun hj hp => ⟨serialize_value_string v hj hp, pyStr_length_pos v hj⟩, ?_⟩
  cases hj : is_json_serializable v with
  | true => left; rw [serialize_value_json v hj]
  | false =>
    cases hp : picklable v with
    | true => right; left; rw [serialize_value_pickle v hj hp]
    | false => right; right; rw [serialize_value_string v hj hp]

/-- Claim C4 witness: a live function is neither JSON-serializable nor
picklable; serialization still succeeds, with a non-empty string payload. -/
theorem serialize_cascade_total_witness :
    serialize_value (PyVal.func "f" 3) =
      { tag := "string", value := .str (pyStr (PyVal.func "f" 3)) } ∧
    0 < (pyStr (PyVal.func "f" 3)).length :=
  (serialize_cascade_total (PyVal.func "f" 3)).2.2.1 rfl rfl

/-- Claim C5: lookup distinguishes container corruption from entry
corruption — a table file that is not valid JSON yields None (no entry)
without raising, while a found entry whose payload tag is none of json,
pickle, string raises the hard deserialization error (the re-raised
ValueError) to the caller. -/
theorem lookup_corruption_contract (a : List PyVal) (kw : List (String × PyVal))
    (t : List (String × Payload)) (tag : String) (v : PyVal)
    (hfound : lookupKey (generate_cache_key a kw) t = some { tag := tag, value := v })
    (h1 : tag ≠ "json") (h2 : tag ≠ "pickle") (h3 : tag ≠ "string") :
    get_cached_result .invalid a kw = .ok PyVal.none
    ∧ get_cached_result (.table t) a kw = .error (.unknownTag tag) := by
  refine ⟨rfl, ?_⟩
  rw [get_cached_result_table, hfound]
  exact deserialize_value_unknown tag v h1 h2 h3

/-- Claim C5 witness: a concrete table whose entry at the queried
fingerprint carries the unrecognized tag blob. -/
theorem lookup_corruption_contract_witness :
    get_cached_result .invalid [PyVal.int 1] [] = .ok PyVal.none
    ∧ get_cached_result
        (.table [(generate_cache_key [PyVal.int 1] [],
          { tag := "blob", value := PyVal.none })]) [PyVal.int 1] [] =
      .error (.unknownTag "blob") :=
  lookup_corruption_contract [PyVal.int 1] [] _ "blob" PyVal.none
    (by simp [lookupKey]) (by decide) (by decide) (by decide)

/-- Claim C7: the self-exclusion heuristic — the first positional argument
is dropped from fingerprinting exactly when it is not of a primitive kind
(None, bool, int, float, str); consequently two calls of a method on two
different instances with the same remaining arguments share a
fingerprint, while a primitive first argument stays in the hashed
arguments. -/
theorem self_exclusion_heuristic (x : PyVal) (rest : List PyVal)
    (c1 c2 : String) (a1 a2 : Nat) (args : List PyVal) (kw : List (String × PyVal)) :
    (filteredArgs (x :: rest) = rest ↔ isPrimitive x = false)
    ∧ (isPrimitive x = true → filteredArgs (x :: rest) = x :: rest)
    ∧ generate_cache_key (.obj c1 a1 :: args) kw =
        generate_cache_key (.obj c2 a2 :: args) kw := by
  refine ⟨⟨?_, ?_⟩, ?_, ?_⟩
  · intro h
    cases hp : isPrimitive x with
    | true =>
      rw [filteredArgs, if_pos hp] at h
      have := congrArg List.length h
      simp at this
    | false => rfl
  · intro h
    rw [filteredArgs, if_neg (by rw [h]; simp)]
  · intro h
    rw [filteredArgs, if_pos h]
  · unfold generate_cache_key paramsStr argsStr
    have h1 : filteredArgs (.obj c1 a1 :: args) = args := by
      rw [filteredArgs, if_neg (by simp [isPrimitive])]
    have h2 : filteredArgs (.obj c2 a2 :: args) = args := by
      rw [filteredArgs, if_neg (by simp [isPrimitive])]
    rw [h1, h2]

/-- Claim C7 witness: instantiated at a non-primitive first argument, a
primitive first argument, and two distinct instances. -/
theorem self_exclusion_heuristic_witness :
    (filteredArgs (PyVal.obj "A" 1 :: [PyVal.int 3]) = [PyVal.int 3] ↔
      isPrimitive (PyVal.obj "A" 1) = false)
    ∧ (isPrimitive (PyVal.obj "A" 1) = true →
        filteredArgs (PyVal.obj "A" 1 :: [PyVal.int 3]) =
          PyVal.obj "A" 1 :: [PyVal.int 3])
    ∧ generate_cache_key (.obj "B" 5 :: [PyVal.int 5]) [] =
        generate_cache_key (.obj "C" 6 :: [PyVal.int 5]) [] :=
  self_exclusion_heuristic (PyVal.obj "A" 1) [PyVal.int 3] "B" "C" 5 6 [PyVal.int 5] []

/-- Claim C1 counterexample: for the function constantly returning None,
the first memoized call misses and stores as the claim says, but the
immediately repeated call with identical arguments again reports the flag
false (the claim demands true), because the cached None is
indistinguishable from a miss. -/
theorem memoize_contract_counterexample :
    (cache_result (fun _ _ => PyVal.none) okEnv .absent [PyVal.int 1] [] =
      .ok ((PyVal.none, false),
        .table [(generate_cache_key [PyVal.int 1] [], serialize_value PyVal.none)]))
    ∧ (cache_result (fun _ _ => PyVal.none) okEnv
        (.table [(generate_cache_key [PyVal.int 1] [], serialize_value PyVal.none)])
        [PyVal.int 1] [] =
      .ok ((PyVal.none, false),
        .table [(generate_cache_key [PyVal.int 1] [], serialize_value PyVal.none)])) := by
  constructor
  · rw [cache_result_miss _ _ _ _ _ (get_cached_result_absent _ _), save_okEnv_absent]
  · have hlook : get_cached_result
        (.table [(generate_cache_key [PyVal.int 1] [], serialize_value PyVal.none)])
        [PyVal.int 1] [] = .ok PyVal.none := by
      rw [get_cached_result_table]
      simp only [lookupKey, if_pos rfl]
      exact roundtrip_json PyVal.none rfl
    rw [cache_result_miss _ _ _ _ _ hlook, save_okEnv_table]
    simp [upsert]

/-- Claim C1 (amended): for both decorator shapes, whenever the computed
result is not None and is JSON-serializable or picklable (so the stored
payload round-trips), and the differing arguments have a different
fingerprint, the contract holds: the first call with given arguments
returns the computed result with the flag false, the immediately repeated
identical call returns an equal result with the flag true, and the call
with the differing arguments returns the flag false again. -/
theorem memoize_hit_miss_contract
    (f : List PyVal → List (String × PyVal) → PyVal)
    (a : List PyVal) (kw : List (String × PyVal))
    (a2 : List PyVal) (kw2 : List (String × PyVal))
    (hne : f a kw ≠ PyVal.none)
    (hser : is_json_serializable (f a kw) = true ∨ picklable (f a kw) = true)
    (hkey : generate_cache_key a2 kw2 ≠ generate_cache_key a kw) :
    (cache_result f okEnv .absent a kw =
      .ok ((f a kw, false),
        .table [(generate_cache_key a kw, serialize_value (f a kw))]))
    ∧ (cache_result f okEnv
        (.table [(generate_cache_key a kw, serialize_value (f a kw))]) a kw =
      .ok ((f a kw, true),
        .table [(generate_cache_key a kw, serialize_value (f a kw))]))
    ∧ (cache_result f okEnv
        (.table [(generate_cache_key a kw, serialize_value (f a kw))]) a2 kw2 =
      .ok ((f a2 kw2, false),
        (save_cached_result okEnv
          (.table [(generate_cache_key a kw, serialize_value (f a kw))])
          a2 kw2 (f a2 kw2)).1))
    ∧ (cache_result_dict f okEnv .absent a kw =
      .ok ({ result := f a kw, isFromCache := false },
        .table [(generate_cache_key a kw, serialize_value (f a kw))]))
    ∧ (cache_result_dict f okEnv
        (.table [(generate_cache_key a kw, serialize_value (f a kw))]) a kw =
      .ok ({ result := f a kw, isFromCache := true },
        .table [(generate_cache_key a kw, serialize_value (f a kw))]))
    ∧ (cache_result_dict f okEnv
        (.table [(generate_cache_key a kw, serialize_value (f a kw))]) a2 kw2 =
      .ok ({ result := f a2 kw2, isFromCache := false },
        (save_cached_result okEnv
          (.table [(generate_cache_key a kw, serialize_value (f a kw))])
          a2 kw2 (f a2 kw2)).1)) := by
  have hlook : get_cached_result
      (.table [(generate_cache_key a kw, serialize_value (f a kw))]) a kw =
      .ok (f a kw) := by
    rw [get_cached_result_table]
    simp only [lookupKey, if_pos rfl]
    exact roundtrip_of_serializable (f a kw) hser
  have hlook2 : get_cached_result
      (.table [(generate_cache_key a kw, serialize_value (f a kw))]) a2 kw2 =
      .ok PyVal.none := by
    rw [get_cached_result_table]
    have hne2 : ¬ generate_cache_key a kw = generate_cache_key a2 kw2 :=
      fun hh => hkey hh.symm
    simp only [lookupKey, if_neg hne2]
  refine ⟨?_, ?_, ?_, ?_, ?_, ?_⟩
  · rw [cache_result_miss _ _ _ _ _ (get_cached_result_absent _ _), save_okEnv_absent]
  · exact cache_result_hit f okEnv _ a kw (f a kw) hlook hne
  · rw [cache_result_miss _ _ _ _ _ hlook2]
  · rw [cache_result_dict_miss _ _ _ _ _ (get_cached_result_absent _ _), save_okEnv_absent]
  · exact cache_result_dict_hit f okEnv _ a kw (f a kw) hlook hne
  · rw [cache_result_dict_miss _ _ _ _ _ hlook2]

set_option maxRecDepth 1000000 in
/-- Claim C1 witness: the constant function returning 7, first called on
the argument 1 and then on the argument 2 (distinct fingerprints,
checked by computing both MD5 digests). -/
theorem memoize_hit_miss_contract_witness :
    (cache_result (fun _ _ => PyVal.int 7) okEnv .absent [PyVal.int 1] [] =
      .ok ((PyVal.int 7, false),
        .table [(generate_cache_key [PyVal.int 1] [], serialize_value (PyVal.int 7))]))
    ∧ (cache_result (fun _ _ => PyVal.int 7) okEnv
        (.table [(generate_cache_key [PyVal.int 1] [], serialize_value (PyVal.int 7))])
        [PyVal.int 1] [] =
      .ok ((PyVal.int 7, true),
        .table [(generate_cache_key [PyVal.int 1] [], serialize_value (PyVal.int 7))]))
    ∧ (cache_result (fun _ _ => PyVal.int 7) okEnv
        (.table [(generate_cache_key [PyVal.int 1] [], serialize_value (PyVal.int 7))])
        [PyVal.int 2] [] =
      .ok ((PyVal.int 7, false),
        (save_cached_result okEnv
          (.table [(generate_cache_key [PyVal.int 1] [], serialize_value (PyVal.int 7))])
          [PyVal.int 2] [] (PyVal.int 7)).1))
    ∧ (cache_result_dict (fun _ _ => PyVal.int 7) okEnv .absent [PyVal.int 1] [] =
      .ok ({ result := PyVal.int 7, isFromCache := false },
        .table [(generate_cache_key [PyVal.int 1] [], serialize_value (PyVal.int 7))]))
    ∧ (cache_result_dict (fun _ _ => PyVal.int 7) okEnv
        (.table [(generate_cache_key [PyVal.int 1] [], serialize_value (PyVal.int 7))])
        [PyVal.int 1] [] =
      .ok ({ result := PyVal.int 7, isFromCache := true },
        .table [(generate_cache_key [PyVal.int 1] [], serialize_value (PyVal.int 7))]))
    ∧ (cache_result_dict (fun _ _ => PyVal.int 7) okEnv
        (.table [(generate_cache_key [PyVal.int 1] [], serialize_value (PyVal.int 7))])
        [PyVal.int 2] [] =
      .ok ({ result := PyVal.int 7, isFromCache := false },
        (save_cached_result okEnv
          (.table [(generate_cache_key [PyVal.int 1] [], serialize_value (PyVal.int 7))])
          [PyVal.int 2] [] (PyVal.int 7)).1)) :=
  memoize_hit_miss_contract (fun _ _ => PyVal.int 7) [PyVal.int 1] [] [PyVal.int 2] []
    (fun h => PyVal.noConfusion h) (Or.inl rfl) (by decide)

/-- Claim C6: store modifies only its own fingerprint's entry — after two
stores with distinct fingerprints the table holds exactly those two
entries, and a third store reusing the first fingerprint replaces that
entry in place while the other entry is untouched. -/
theorem store_frame_and_overwrite
    (a1 : List PyVal) (kw1 : List (String × PyVal)) (r1 : PyVal)
    (a2 : List PyVal) (kw2 : List (String × PyVal)) (r2 r3 : PyVal)
    (hkey : generate_cache_key a1 kw1 ≠ generate_cache_key a2 kw2) :
    (save_cached_result okEnv .absent a1 kw1 r1).1 =
      .table [(generate_cache_key a1 kw1, serialize_value r1)]
    ∧ (save_cached_result okEnv
        (.table [(generate_cache_key a1 kw1, serialize_value r1)]) a2 kw2 r2).1 =
      .table [(generate_cache_key a1 kw1, serialize_value r1),
              (generate_cache_key a2 kw2, serialize_value r2)]
    ∧ (save_cached_result okEnv
        (.table [(generate_cache_key a1 kw1, serialize_value r1),
                 (generate_cache_key a2 kw2, serialize_value r2)]) a1 kw1 r3).1 =
      .table [(generate_cache_key a1 kw1, serialize_value r3),
              (generate_cache_key a2 kw2, serialize_value r2)] := by
  refine ⟨?_, ?_, ?_⟩
  · rw [save_okEnv_absent]
  · rw [save_okEnv_table]
    simp [upsert, hkey]
  · rw [save_okEnv_table]
    simp [upsert]

set_option maxRecDepth 1000000 in
/-- Claim C6 witness: two concrete stores under the fingerprints of the
argument 1 and the argument 2 (digests computed and distinct), then an
overwrite of the first. -/
theorem store_frame_and_overwrite_witness :
    (save_cached_result okEnv .absent [PyVal.int 1] [] (PyVal.int 10)).1 =
      .table [(generate_cache_key [PyVal.int 1] [], serialize_value (PyVal.int 10))]
    ∧ (save_cached_result okEnv
        (.table [(generate_cache_key [PyVal.int 1] [], serialize_value (PyVal.int 10))])
        [PyVal.int 2] [] (PyVal.int 20)).1 =
      .table [(generate_cache_key [PyVal.int 1] [], serialize_value (PyVal.int 10)),
              (generate_cache_key [PyVal.int 2] [], serialize_value (PyVal.int 20))]
    ∧ (save_cached_result okEnv
        (.table [(generate_cache_key [PyVal.int 1] [], serialize_value (PyVal.int 10)),
                 (generate_cache_key [PyVal.int 2] [], serialize_value (PyVal.int 20))])
        [PyVal.int 1] [] (PyVal.int 30)).1 =
      .table [(generate_cache_key [PyVal.int 1] [], serialize_value (PyVal.int 30)),
              (generate_cache_key [PyVal.int 2] [], serialize_value (PyVal.int 20))] :=
  store_frame_and_overwrite [PyVal.int 1] [] (PyVal.int 10) [PyVal.int 2] []
    (PyVal.int 20) (PyVal.int 30) (by decide)


/-- Pack a bounded MD5 state into the finite space of four 32-bit words. -/
def packState (st : MD5State)
    (h : st.a < m32 ∧ st.b < m32 ∧ st.c < m32 ∧ st.d < m32) :
    Fin m32 × Fin m32 × Fin m32 × Fin m32 :=
  (⟨st.a, h.1⟩, ⟨st.b, h.2.1⟩, ⟨st.c, h.2.2.1⟩, ⟨st.d, h.2.2.2⟩)

theorem packState_inj (s1 s2 : MD5State)
    (h1 : s1.a < m32 ∧ s1.b < m32 ∧ s1.c < m32 ∧ s1.d < m32)
    (h2 : s2.a < m32 ∧ s2.b < m32 ∧ s2.c < m32 ∧ s2.d < m32)
    (h : packState s1 h1 = packState s2 h2) : s1 = s2 := by
  obtain ⟨a1, b1, c1, d1⟩ := s1
  obtain ⟨a2, b2, c2, d2⟩ := s2
  simp [packState, Prod.ext_iff, Fin.ext_iff] at h
  simp [h]

/-- The MD5 register state of the fingerprint of the single int argument n. -/
def fpWords (n : Nat) : MD5State := md5Words (utf8Bytes (paramsStr [PyVal.int n] []))

/-- The same state packed into the finite codomain. -/
def fpFin (n : Nat) : Fin m32 × Fin m32 × Fin m32 × Fin m32 :=
  packState (fpWords n)
    ⟨(md5Words_lt (utf8Bytes (paramsStr [PyVal.int n] []))).1,
     (md5Words_lt (utf8Bytes (paramsStr [PyVal.int n] []))).2.1,
     (md5Words_lt (utf8Bytes (paramsStr [PyVal.int n] []))).2.2.1,
     (md5Words_lt (utf8Bytes (paramsStr [PyVal.int n] []))).2.2.2⟩

/-- Claim C8 counterexample: full injectivity of the fingerprint cannot
hold — the digest is determined by the four 32-bit MD5 registers, a
finite codomain, while the int arguments are infinitely many, so two
calls with different argument values share a fingerprint (pigeonhole; no
explicit collision pair is computable, but the negation of the universal
claim is provable). -/
theorem fingerprint_injectivity_counterexample :
    ¬ (∀ x y : List PyVal × List (String × PyVal), x ≠ y →
        generate_cache_key x.1 x.2 ≠ generate_cache_key y.1 y.2) := by
  intro H
  obtain ⟨x, y, hxy, hf⟩ := Finite.exists_ne_map_eq_of_infinite fpFin
  have hwords : fpWords x = fpWords y := packState_inj _ _ _ _ hf
  have hne : (([PyVal.int x], []) : List PyVal × List (String × PyVal)) ≠
      ([PyVal.int y], []) := by
    intro hcon
    apply hxy
    have h1 : [PyVal.int (x : Int)] = [PyVal.int (y : Int)] := congrArg Prod.fst hcon
    have h2 : PyVal.int (x : Int) = PyVal.int (y : Int) := by injection h1
    have h3 : (x : Int) = (y : Int) := by injection h2
    exact_mod_cast h3
  exact H ([PyVal.int x], []) ([PyVal.int y], []) hne (md5Hex_congr _ _ hwords)

set_option maxRecDepth 1000000 in
/-- Claim C8 (amended): fingerprint derivation includes the runtime type
name in the hashed string, so the call with the int 1 and the call with
the str 1 hash different params strings and obtain distinct digests; full
injectivity over all argument values is impossible for a 128-bit digest
and is not claimed. -/
theorem fingerprint_type_discrimination :
    paramsStr [PyVal.int 1] [] = "[('int', 1)]:[]"
    ∧ paramsStr [PyVal.str "1"] [] = "[('str', '1')]:[]"
    ∧ generate_cache_key [PyVal.int 1] [] ≠ generate_cache_key [PyVal.str "1"] [] := by
  refine ⟨by decide, by decide, by decide⟩

theorem saveBody_error_state (env : StoreEnv) (disk : FileState)
    (a : List PyVal) (kw : List (String × PyVal)) (r : PyVal) (e : StoreError)
    (fsE : FileState) (h : saveBody env disk a kw r = .error (e, fsE)) :
    fsE = disk ∨ fsE = .invalid := by
  cases disk <;>
    cases hw : env.openWriteFails <;>
    cases hdmp : env.dumpFails <;>
    cases hr : env.readFails <;>
    simp_all [saveBody]

/-- Claim C9: store never propagates a write-path failure — whenever the
try body raises (corrupt existing table, read failure, open-for-write
failure, failed dump), save_cached_result still returns normally with the
caught flag set and without having added the new entry (the entry is
present afterwards only if it was already present before); when the body
succeeds nothing is caught. -/
theorem store_failure_swallowed (env : StoreEnv) (disk : FileState)
    (a : List PyVal) (kw : List (String × PyVal)) (r : PyVal) :
    (∀ e fsE, saveBody env disk a kw r = .error (e, fsE) →
      save_cached_result env disk a kw r = (fsE, true)
      ∧ (lookupDisk (generate_cache_key a kw) fsE = some (serialize_value r) →
         lookupDisk (generate_cache_key a kw) disk = some (serialize_value r)))
    ∧ (∀ fs, saveBody env disk a kw r = .ok fs →
        save_cached_result env disk a kw r = (fs, false)) := by
  constructor
  · intro e fsE h
    refine ⟨by simp [save_cached_result, h], ?_⟩
    rcases saveBody_error_state env disk a kw r e fsE h with rfl | rfl
    · exact fun hlook => hlook
    · intro hlook
      simp [lookupDisk] at hlook
  · intro fs h
    simp [save_cached_result, h]

/-- Claim C9 witness: an open-for-write failure on a fresh store — the
body raises, the wrapper returns normally with the error logged and the
file untouched (absent), so the new entry was dropped. -/
theorem store_failure_swallowed_witness :
    save_cached_result { readFails := false, openWriteFails := true, dumpFails := false }
      .absent [PyVal.int 1] [] (PyVal.int 5) = (.absent, true)
    ∧ (lookupDisk (generate_cache_key [PyVal.int 1] []) .absent =
        some (serialize_value (PyVal.int 5)) →
       lookupDisk (generate_cache_key [PyVal.int 1] []) .absent =
        some (serialize_value (PyVal.int 5))) :=
  (store_failure_swallowed
    { readFails := false, openWriteFails := true, dumpFails := false }
    .absent [PyVal.int 1] [] (PyVal.int 5)).1 .ioError .absent rfl

/-- Claim C10: a cached value that deserializes to None is never served
from cache — whenever lookup yields None (a miss or a stored None), the
wrapper re-executes the function, stores the None result again, and
reports the flag false; in particular this happens on the call
immediately repeating identical arguments after a successful store of
None, so the flag conflates a cached None with a miss. -/
theorem cached_none_never_served (f : List PyVal → List (String × PyVal) → PyVal)
    (env : StoreEnv) (disk : FileState) (a : List PyVal) (kw : List (String × PyVal))
    (hf : f a kw = PyVal.none)
    (hlook : get_cached_result disk a kw = .ok PyVal.none) :
    cache_result f env disk a kw =
      .ok ((PyVal.none, false), (save_cached_result env disk a kw PyVal.none).1)
    ∧ cache_result f okEnv
        (.table [(generate_cache_key a kw, serialize_value PyVal.none)]) a kw =
      .ok ((PyVal.none, false),
        .table [(generate_cache_key a kw, serialize_value PyVal.none)]) := by
  constructor
  · rw [cache_result_miss f env disk a kw hlook, hf]
  · have hlook2 : get_cached_result
        (.table [(generate_cache_key a kw, serialize_value PyVal.none)]) a kw =
        .ok PyVal.none := by
      rw [get_cached_result_table]
      simp only [lookupKey, if_pos rfl]
      exact roundtrip_json PyVal.none rfl
    rw [cache_result_miss f okEnv _ a kw hlook2, hf, save_okEnv_table]
    simp [upsert]

/-- Claim C10 witness: the constant-None function on a fresh cache — the
call misses, and the call repeated on the stored-None table also reports
the flag false. -/
theorem cached_none_never_served_witness :
    cache_result (fun _ _ => PyVal.none) okEnv .absent [PyVal.int 3] [] =
      .ok ((PyVal.none, false),
        (save_cached_result okEnv .absent [PyVal.int 3] [] PyVal.none).1)
    ∧ cache_result (fun _ _ => PyVal.none) okEnv
        (.table [(generate_cache_key [PyVal.int 3] [], serialize_value PyVal.none)])
        [PyVal.int 3] [] =
      .ok ((PyVal.none, false),
        .table [(generate_cache_key [PyVal.int 3] [], serialize_value PyVal.none)]) :=
  cached_none_never_served (fun _ _ => PyVal.none) okEnv .absent [PyVal.int 3] []
    rfl rfl
